import Mathlib

/-!
Shallow embedding of the chain-cosmos-server cryptographic core
(src/utils/crypto.js, src/wallet/Wallet.js, src/core/Transaction.js,
src/core/Block.js) and proofs of the specification claims about it.

Modelling conventions:
* JS 32-bit unsigned words are Nat with explicit reduction modulo 2^32
  (the JS expression (x >>> 0) becomes x % M32).
* Uint8Array values are List Nat whose elements are < 256 at every
  construction site (digest output bytes are masked with &&& 255 exactly
  as the source does).
* Strings are Lean String; String.length counts code points, which agrees
  with the JS length for the basic-plane strings the claims range over.
* String.prototype.toLowerCase is modelled with core Char.toLower, which
  performs exactly the ASCII lowering relevant to hex input.
* JS numbers appearing in block/transaction payloads (timestamp, amount)
  are modelled as integers; their template-literal rendering is toString.
* Fallible operations (hex decoding) return Except CryptoError.
-/

/-- Modulus for 32-bit unsigned arithmetic. -/
def M32 : Nat := 2 ^ 32

/-- JS rightRotate from crypto.js: ((value >>> amount) | (value << (32 - amount))) >>> 0. -/
def rightRotate (value amount : Nat) : Nat :=
  ((value >>> amount) ||| (value <<< (32 - amount))) % M32

/-- JS leftRotate from crypto.js: ((value << amount) | (value >>> (32 - amount))) >>> 0. -/
def leftRotate (value amount : Nat) : Nat :=
  ((value <<< amount) ||| (value >>> (32 - amount))) % M32

/-- JS bitwise complement ~v restricted to a 32-bit word. -/
def cpl32 (v : Nat) : Nat := 4294967295 ^^^ v

/-- Hex digit characters and their values, as accepted by JS parseInt radix 16. -/
def isHexDigitB (c : Char) : Bool :=
  decide ((48 ≤ c.toNat ∧ c.toNat ≤ 57) ∨ (97 ≤ c.toNat ∧ c.toNat ≤ 102) ∨
    (65 ≤ c.toNat ∧ c.toNat ≤ 70))

/-- Value of a hex digit character (0 for non-digits; only applied to digits). -/
def hexDigitVal (c : Char) : Nat :=
  if 48 ≤ c.toNat ∧ c.toNat ≤ 57 then c.toNat - 48
  else if 97 ≤ c.toNat ∧ c.toNat ≤ 102 then c.toNat - 87
  else if 65 ≤ c.toNat ∧ c.toNat ≤ 70 then c.toNat - 55
  else 0

/-- The ECMAScript WhiteSpace and LineTerminator code points skipped by parseInt. -/
def jsWhitespaceB (c : Char) : Bool :=
  decide (c.toNat = 9 ∨ c.toNat = 10 ∨ c.toNat = 11 ∨ c.toNat = 12 ∨ c.toNat = 13 ∨
    c.toNat = 32 ∨ c.toNat = 160 ∨ c.toNat = 0x1680 ∨
    (0x2000 ≤ c.toNat ∧ c.toNat ≤ 0x200A) ∨ c.toNat = 0x2028 ∨ c.toNat = 0x2029 ∨
    c.toNat = 0x202F ∨ c.toNat = 0x205F ∨ c.toNat = 0x3000 ∨ c.toNat = 0xFEFF)

/-- The radix-16 prefix rule of JS parseInt: an initial 0x or 0X is stripped. -/
def strip0x (s : List Char) : List Char :=
  match s with
  | c0 :: cx :: rest =>
    if c0.toNat = 48 ∧ (cx.toNat = 120 ∨ cx.toNat = 88) then rest else c0 :: cx :: rest
  | other => other

/-- Digit phase of JS parseInt with radix 16: strip an optional 0x / 0X,
take the longest hex-digit run, return none (NaN) when it is empty. -/
def jsParseHexTail (s : List Char) (sign : Int) : Option Int :=
  let ds := (strip0x s).takeWhile isHexDigitB
  if ds.isEmpty then none
  else some (sign * ds.foldl (fun acc c => acc * 16 + (hexDigitVal c : Int)) 0)

/-- JS parseInt(string, 16): skip leading whitespace, read an optional sign,
then parse hex digits; none models NaN. -/
def jsParseIntHex (s : List Char) : Option Int :=
  match s.dropWhile jsWhitespaceB with
  | [] => none
  | c :: rest =>
    if c.toNat = 45 then jsParseHexTail rest (-1)
    else if c.toNat = 43 then jsParseHexTail rest 1
    else jsParseHexTail (c :: rest) 1

/-- JS ToUint8 applied to a parseInt result when storing into a Uint8Array:
NaN becomes 0, integers are reduced modulo 256. -/
def toUint8 : Option Int → Nat
  | none => 0
  | some i => (i % 256).toNat

/-- One byte of hexToBytes: parseInt(hex.substr(i * 2, 2), 16) stored in a Uint8Array. -/
def jsHexPairByte (c1 c2 : Char) : Nat := toUint8 (jsParseIntHex [c1, c2])

/-- Successive 2-character pairs of the input, each parsed to one byte. -/
def hexPairsToBytes : List Char → List Nat
  | c1 :: c2 :: rest => jsHexPairByte c1 c2 :: hexPairsToBytes rest
  | _ => []

/-- Error taxonomy of the spec for the encoding layer. -/
inductive CryptoError where
  | invalidEncoding : CryptoError
  | unsupportedType : CryptoError
deriving DecidableEq, Repr

/-- hexToBytes from crypto.js: reject odd length, otherwise parse every
2-character pair with parseInt radix 16. -/
def hexToBytes (hex : String) : Except CryptoError (List Nat) :=
  if hex.length % 2 ≠ 0 then .error .invalidEncoding
  else .ok (hexPairsToBytes hex.data)

/-- Two lowercase hex digits for one byte: (v >>> 4).toString(16) + (v & 0x0f).toString(16). -/
def byteHex (v : Nat) : List Char := [Nat.digitChar (v >>> 4), Nat.digitChar (v &&& 15)]

/-- bytesToHex from crypto.js, on Uint8Array contents (bytes < 256). -/
def bytesToHex (bytes : List Nat) : String := String.mk (bytes.flatMap byteHex)

/-- UTF-8 encoding of one scalar value, as produced by TextEncoder. -/
def utf8EncodeCharNat (n : Nat) : List Nat :=
  if n < 0x80 then [n]
  else if n < 0x800 then [0xC0 ||| (n >>> 6), 0x80 ||| (n &&& 0x3F)]
  else if n < 0x10000 then
    [0xE0 ||| (n >>> 12), 0x80 ||| ((n >>> 6) &&& 0x3F), 0x80 ||| (n &&& 0x3F)]
  else
    [0xF0 ||| (n >>> 18), 0x80 ||| ((n >>> 12) &&& 0x3F),
     0x80 ||| ((n >>> 6) &&& 0x3F), 0x80 ||| (n &&& 0x3F)]

/-- TEXT_ENCODER.encode from crypto.js. -/
def utf8Encode (s : String) : List Nat := s.data.flatMap (fun c => utf8EncodeCharNat c.toNat)

/-- String.prototype.toLowerCase restricted to the ASCII range (exact on hex text). -/
def strToLower (s : String) : String := String.mk (s.data.map Char.toLower)

/-- Inputs accepted by normalizeInput: a Uint8Array or a string. -/
inductive Input where
  | bytes : List Nat → Input
  | str : String → Input

/-- The two encodings normalizeInput distinguishes for string input. -/
inductive Encoding where
  | utf8 : Encoding
  | hex : Encoding
deriving DecidableEq

/-- normalizeInput from crypto.js: byte input passes through; hex strings are
lowercased then decoded; other strings are UTF-8 encoded. -/
def normalizeInput (data : Input) (encoding : Encoding) : Except CryptoError (List Nat) :=
  match data with
  | .bytes bs => .ok bs
  | .str s =>
    match encoding with
    | .hex => hexToBytes (strToLower s)
    | .utf8 => .ok (utf8Encode s)

/-- SHA256_INITIAL from crypto.js. -/
def SHA256_INITIAL : List Nat :=
  [0x6A09E667, 0xBB67AE85, 0x3C6EF372, 0xA54FF53A,
   0x510E527F, 0x9B05688C, 0x1F83D9AB, 0x5BE0CD19]

/-- SHA256_K from crypto.js. -/
def SHA256_K : List Nat :=
  [0x428A2F98, 0x71374491, 0xB5C0FBCF, 0xE9B5DBA5,
   0x3956C25B, 0x59F111F1, 0x923F82A4, 0xAB1C5ED5,
   0xD807AA98, 0x12835B01, 0x243185BE, 0x550C7DC3,
   0x72BE5D74, 0x80DEB1FE, 0x9BDC06A7, 0xC19BF174,
   0xE49B69C1, 0xEFBE4786, 0x0FC19DC6, 0x240CA1CC,
   0x2DE92C6F, 0x4A7484AA, 0x5CB0A9DC, 0x76F988DA,
   0x983E5152, 0xA831C66D, 0xB00327C8, 0xBF597FC7,
   0xC6E00BF3, 0xD5A79147, 0x06CA6351, 0x14292967,
   0x27B70A85, 0x2E1B2138, 0x4D2C6DFC, 0x53380D13,
   0x650A7354, 0x766A0ABB, 0x81C2C92E, 0x92722C85,
   0xA2BFE8A1, 0xA81A664B, 0xC24B8B70, 0xC76C51A3,
   0xD192E819, 0xD6990624, 0xF40E3585, 0x106AA070,
   0x19A4C116, 0x1E376C08, 0x2748774C, 0x34B0BCB5,
   0x391C0CB3, 0x4ED8AA4A, 0x5B9CCA4F, 0x682E6FF3,
   0x748F82EE, 0x78A5636F, 0x84C87814, 0x8CC70208,
   0x90BEFFFA, 0xA4506CEB, 0xBEF9A3F7, 0xC67178F2]

/-- Big-endian 32-bit words from consecutive 4-byte groups, as in the w[i] loads. -/
def wordsBE : List Nat → List Nat
  | b0 :: b1 :: b2 :: b3 :: rest =>
    (((b0 <<< 24) ||| (b1 <<< 16) ||| (b2 <<< 8) ||| b3) % M32) :: wordsBE rest
  | _ => []

/-- One step of the SHA-256 message-schedule extension (w[16..63]). -/
def sha256ExtStep (w : List Nat) : List Nat :=
  let i := w.length
  let w15 := w.getD (i - 15) 0
  let w2 := w.getD (i - 2) 0
  let s0 := rightRotate w15 7 ^^^ rightRotate w15 18 ^^^ (w15 >>> 3)
  let s1 := rightRotate w2 17 ^^^ rightRotate w2 19 ^^^ (w2 >>> 10)
  w ++ [(((w.getD (i - 16) 0 + s0) % M32) + w.getD (i - 7) 0 + s1) % M32]

/-- Iterate a function n times. -/
def iterN (f : α → α) : Nat → α → α
  | 0, x => x
  | n + 1, x => iterN f n (f x)

/-- Full 64-word SHA-256 message schedule of one block. -/
def sha256Schedule (block : List Nat) : List Nat := iterN sha256ExtStep 48 (wordsBE block)

/-- The 8 SHA-256 working variables; the source names the last one i. -/
structure Sha256State where
  a : Nat
  b : Nat
  c : Nat
  d : Nat
  e : Nat
  f : Nat
  g : Nat
  hh : Nat

/-- One of the 64 SHA-256 compression rounds. -/
def sha256Round (w : List Nat) (st : Sha256State) (t : Nat) : Sha256State :=
  let S1 := rightRotate st.e 6 ^^^ rightRotate st.e 11 ^^^ rightRotate st.e 25
  let ch := (st.e &&& st.f) ^^^ (cpl32 st.e &&& st.g)
  let temp1 := ((((st.hh + S1) % M32) + ch) % M32 + SHA256_K.getD t 0 + w.getD t 0) % M32
  let S0 := rightRotate st.a 2 ^^^ rightRotate st.a 13 ^^^ rightRotate st.a 22
  let maj := (st.a &&& st.b) ^^^ (st.a &&& st.c) ^^^ (st.b &&& st.c)
  let temp2 := (S0 + maj) % M32
  ⟨(temp1 + temp2) % M32, st.a, st.b, st.c, (st.d + temp1) % M32, st.e, st.f, st.g⟩

/-- Compression of one 64-byte block into the running 8-word state. -/
def sha256Compress (h : List Nat) (block : List Nat) : List Nat :=
  let w := sha256Schedule block
  let st0 : Sha256State :=
    ⟨h.getD 0 0, h.getD 1 0, h.getD 2 0, h.getD 3 0,
     h.getD 4 0, h.getD 5 0, h.getD 6 0, h.getD 7 0⟩
  let st := (List.range 64).foldl (sha256Round w) st0
  [(h.getD 0 0 + st.a) % M32, (h.getD 1 0 + st.b) % M32,
   (h.getD 2 0 + st.c) % M32, (h.getD 3 0 + st.d) % M32,
   (h.getD 4 0 + st.e) % M32, (h.getD 5 0 + st.f) % M32,
   (h.getD 6 0 + st.g) % M32, (h.getD 7 0 + st.hh) % M32]

/-- Successive 64-byte chunks, with structural fuel; each step consumes a
nonempty list so fuel equal to the length always suffices. -/
def chunks64Aux : Nat → List Nat → List (List Nat)
  | _, [] => []
  | 0, _ :: _ => []
  | fuel + 1, x :: xs => (x :: xs).take 64 :: chunks64Aux fuel ((x :: xs).drop 64)

/-- Successive 64-byte chunks of the padded message (the offset loop of the
block-processing functions). -/
def chunks64 (l : List Nat) : List (List Nat) := chunks64Aux l.length l

/-- Big-endian serialization of one 32-bit word into 4 digest bytes. -/
def wordBytesBE (x : Nat) : List Nat :=
  [(x >>> 24) &&& 255, (x >>> 16) &&& 255, (x >>> 8) &&& 255, x &&& 255]

/-- sha256BlockProcess from crypto.js: fold the compression over the 64-byte
blocks and serialize the state big-endian. -/
def sha256BlockProcess (padded : List Nat) : List Nat :=
  ((chunks64 padded).foldl sha256Compress SHA256_INITIAL).flatMap wordBytesBE

/-- SHA-256 padding from sha256Bytes: a 0x80 byte, zeros, then the 64-bit
big-endian bit length (high word written at paddedLength - 8). -/
def sha256Pad (message : List Nat) : List Nat :=
  let originalLength := message.length
  let bitLength := originalLength * 8
  let paddedLength := ((originalLength + 9 + 63) >>> 6) <<< 6
  message ++ [0x80] ++ List.replicate (paddedLength - originalLength - 9) 0 ++
    wordBytesBE (bitLength / M32) ++ wordBytesBE (bitLength % M32)

/-- SHA-256 digest of a byte sequence (the body of sha256Bytes after normalizeInput). -/
def sha256BytesCore (message : List Nat) : List Nat := sha256BlockProcess (sha256Pad message)

/-- sha256Bytes from crypto.js. -/
def sha256Bytes (data : Input) (encoding : Encoding) : Except CryptoError (List Nat) :=
  (normalizeInput data encoding).map sha256BytesCore

/-- sha256Hex from crypto.js. -/
def sha256Hex (data : Input) (encoding : Encoding) : Except CryptoError String :=
  (sha256Bytes data encoding).map bytesToHex

/-- sha256Hex specialized to a UTF-8 string input, where it cannot fail. -/
def sha256HexStr (s : String) : String := bytesToHex (sha256BytesCore (utf8Encode s))

/-- RIPEMD160_INIT from crypto.js. -/
def RIPEMD160_INIT : List Nat := [0x67452301, 0xefcdab89, 0x98badcfe, 0x10325476, 0xc3d2e1f0]

/-- RIPEMD160_R from crypto.js. -/
def RIPEMD160_R : List Nat :=
  [0, 1, 2, 3, 4, 5, 6, 7, 8, 9, 10, 11, 12, 13, 14, 15,
   7, 4, 13, 1, 10, 6, 15, 3, 12, 0, 9, 5, 2, 14, 11, 8,
   3, 10, 14, 4, 9, 15, 8, 1, 2, 7, 0, 6, 13, 11, 5, 12,
   1, 9, 11, 10, 0, 8, 12, 4, 13, 3, 7, 15, 14, 5, 6, 2,
   4, 0, 5, 9, 7, 12, 2, 10, 14, 1, 3, 8, 11, 6, 15, 13]

/-- RIPEMD160_RP from crypto.js. -/
def RIPEMD160_RP : List Nat :=
  [5, 14, 7, 0, 9, 2, 11, 4, 13, 6, 15, 8, 1, 10, 3, 12,
   6, 11, 3, 7, 0, 13, 5, 10, 14, 15, 8, 12, 4, 9, 1, 2,
   15, 5, 1, 3, 7, 14, 6, 9, 11, 8, 12, 2, 10, 0, 4, 13,
   8, 6, 4, 1, 3, 11, 15, 0, 5, 12, 2, 13, 9, 7, 10, 14,
   12, 15, 10, 4, 1, 5, 8, 7, 6, 2, 13, 14, 0, 3, 9, 11]

/-- RIPEMD160_S from crypto.js. -/
def RIPEMD160_S : List Nat :=
  [11, 14, 15, 12, 5, 8, 7, 9, 11, 13, 14, 15, 6, 7, 9, 8,
   7, 6, 8, 13, 11, 9, 7, 15, 7, 12, 15, 9, 11, 7, 13, 12,
   11, 13, 6, 7, 14, 9, 13, 15, 14, 8, 13, 6, 5, 12, 7, 5,
   11, 12, 14, 15, 14, 15, 9, 8, 9, 14, 5, 6, 8, 6, 5, 12,
   9, 15, 5, 11, 6, 8, 13, 12, 5, 12, 13, 14, 11, 8, 5, 6]

/-- RIPEMD160_SP from crypto.js. -/
def RIPEMD160_SP : List Nat :=
  [8, 9, 9, 11, 13, 15, 15, 5, 7, 7, 8, 11, 14, 14, 12, 6,
   9, 13, 15, 7, 12, 8, 9, 11, 7, 7, 12, 7, 6, 15, 13, 11,
   9, 7, 15, 11, 8, 6, 6, 14, 12, 13, 5, 14, 13, 13, 7, 5,
   15, 5, 8, 11, 14, 14, 6, 14, 6, 9, 12, 9, 12, 5, 15, 8,
   8, 5, 12, 9, 12, 5, 14, 6, 8, 13, 6, 5, 15, 13, 11, 11]

/-- RIPEMD160_K from crypto.js. -/
def RIPEMD160_K : List Nat := [0x00000000, 0x5a827999, 0x6ed9eba1, 0x8f1bbcdc, 0xa953fd4e]

/-- RIPEMD160_KP from crypto.js. -/
def RIPEMD160_KP : List Nat := [0x50a28be6, 0x5c4dd124, 0x6d703ef3, 0x7a6d76e9, 0x00000000]

/-- ripemdF from crypto.js: the step-indexed nonlinear functions. -/
def ripemdF (j x y z : Nat) : Nat :=
  if j ≤ 15 then x ^^^ y ^^^ z
  else if j ≤ 31 then (x &&& y) ||| (cpl32 x &&& z)
  else if j ≤ 47 then (x ||| cpl32 y) ^^^ z
  else if j ≤ 63 then (x &&& z) ||| (y &&& cpl32 z)
  else x ^^^ (y ||| cpl32 z)

/-- Little-endian 32-bit words from consecutive 4-byte groups. -/
def wordsLE : List Nat → List Nat
  | b0 :: b1 :: b2 :: b3 :: rest =>
    ((b0 ||| (b1 <<< 8) ||| (b2 <<< 16) ||| (b3 <<< 24)) % M32) :: wordsLE rest
  | _ => []

/-- The ten RIPEMD-160 working variables (left and right lines). -/
structure RipemdState where
  al : Nat
  bl : Nat
  cl : Nat
  dl : Nat
  el : Nat
  ar : Nat
  br : Nat
  cr : Nat
  dr : Nat
  er : Nat

/-- One of the 80 dual-line RIPEMD-160 steps. -/
def ripemdRound (words : List Nat) (st : RipemdState) (j : Nat) : RipemdState :=
  let tl := (leftRotate ((st.al + ripemdF j st.bl st.cl st.dl +
    words.getD (RIPEMD160_R.getD j 0) 0 + RIPEMD160_K.getD (j / 16) 0) % M32)
    (RIPEMD160_S.getD j 0) + st.el) % M32
  let tr := (leftRotate ((st.ar + ripemdF (79 - j) st.br st.cr st.dr +
    words.getD (RIPEMD160_RP.getD j 0) 0 + RIPEMD160_KP.getD (j / 16) 0) % M32)
    (RIPEMD160_SP.getD j 0) + st.er) % M32
  ⟨st.el, tl, st.bl, leftRotate st.cl 10, st.dl,
   st.er, tr, st.br, leftRotate st.cr 10, st.dr⟩

/-- Compression of one 64-byte block in ripemdProcess, including the final
cross-assignment of left- and right-line outputs. -/
def ripemdCompress (h : List Nat) (block : List Nat) : List Nat :=
  let words := wordsLE block
  let h0 := h.getD 0 0
  let h1 := h.getD 1 0
  let h2 := h.getD 2 0
  let h3 := h.getD 3 0
  let h4 := h.getD 4 0
  let st0 : RipemdState := ⟨h0, h1, h2, h3, h4, h0, h1, h2, h3, h4⟩
  let st := (List.range 80).foldl (ripemdRound words) st0
  [(h1 + st.cl + st.dr) % M32, (h2 + st.dl + st.er) % M32,
   (h3 + st.el + st.ar) % M32, (h4 + st.al + st.br) % M32,
   (h0 + st.bl + st.cr) % M32]

/-- Little-endian serialization of one 32-bit word into 4 digest bytes. -/
def wordBytesLE (x : Nat) : List Nat :=
  [x &&& 255, (x >>> 8) &&& 255, (x >>> 16) &&& 255, (x >>> 24) &&& 255]

/-- ripemdProcess from crypto.js. -/
def ripemdProcess (padded : List Nat) : List Nat :=
  ((chunks64 padded).foldl ripemdCompress RIPEMD160_INIT).flatMap wordBytesLE

/-- RIPEMD-160 padding from ripemd160Bytes: like SHA-256 but the 64-bit bit
length is little-endian (low word written at paddedLength - 8). -/
def ripemd160Pad (message : List Nat) : List Nat :=
  let originalLength := message.length
  let bitLength := originalLength * 8
  let paddedLength := ((originalLength + 9 + 63) >>> 6) <<< 6
  message ++ [0x80] ++ List.replicate (paddedLength - originalLength - 9) 0 ++
    wordBytesLE (bitLength % M32) ++ wordBytesLE (bitLength / M32)

/-- RIPEMD-160 digest of a byte sequence (ripemd160Bytes after normalizeInput). -/
def ripemd160BytesCore (message : List Nat) : List Nat := ripemdProcess (ripemd160Pad message)

/-- ripemd160Bytes from crypto.js. -/
def ripemd160Bytes (data : Input) (encoding : Encoding) : Except CryptoError (List Nat) :=
  (normalizeInput data encoding).map ripemd160BytesCore

/-- ripemd160Hex from crypto.js. -/
def ripemd160Hex (data : Input) (encoding : Encoding) : Except CryptoError String :=
  (ripemd160Bytes data encoding).map bytesToHex

/-- padKey from crypto.js: hash keys longer than the block size, then
right-pad with zero bytes to the block size. -/
def padKey (keyBytes : List Nat) (blockSize : Nat) : List Nat :=
  let kb := if keyBytes.length > blockSize then sha256BytesCore keyBytes else keyBytes
  if kb.length < blockSize then kb ++ List.replicate (blockSize - kb.length) 0 else kb

/-- hmacSha256Hex from crypto.js. -/
def hmacSha256Hex (key message : Input) (keyEncoding messageEncoding : Encoding) :
    Except CryptoError String := do
  let blockSize := 64
  let keyBytes0 ← normalizeInput key keyEncoding
  let keyBytes := padKey keyBytes0 blockSize
  let messageBytes ← normalizeInput message messageEncoding
  let ipad := (List.range blockSize).map (fun i => keyBytes.getD i 0 ^^^ 0x36)
  let opad := (List.range blockSize).map (fun i => keyBytes.getD i 0 ^^^ 0x5c)
  let innerHash := sha256BytesCore (ipad ++ messageBytes)
  return bytesToHex (sha256BytesCore (opad ++ innerHash))

/-- The HMAC-SHA256 value exactly as the spec words it: K is the normalized
key (SHA-256 digest when longer than 64 bytes, zero-padded on the right to
exactly 64 bytes), and the result is SHA256((K XOR opad) || SHA256((K XOR
ipad) || message)) with ipad = 0x36 and opad = 0x5c repeated 64 times. -/
def hmacSpecFormula (keyBytes messageBytes : List Nat) : String :=
  let kPrime := if keyBytes.length > 64 then sha256BytesCore keyBytes else keyBytes
  let k := kPrime ++ List.replicate (64 - kPrime.length) 0
  let inner := sha256BytesCore (k.zipWith (· ^^^ ·) (List.replicate 64 0x36) ++ messageBytes)
  bytesToHex (sha256BytesCore (k.zipWith (· ^^^ ·) (List.replicate 64 0x5c) ++ inner))

/-- Wallet.generatePublicKey from Wallet.js: SHA-256 of the private key text.
String input with the default utf8 encoding cannot fail, so this is a String. -/
def generatePublicKey (privateKey : String) : String := sha256HexStr privateKey

/-- Wallet.generateAddress from Wallet.js: SHA-256 of the public key text,
RIPEMD-160 of the decoded bytes of that digest, behind the cosmo literal. -/
def generateAddress (publicKey : String) : Except CryptoError String :=
  let intermediate := sha256HexStr publicKey
  (ripemd160Hex (.str intermediate) .hex).map (fun body => "cosmo" ++ body)

/-- JSON values as produced by the toJSON methods (integral numbers only). -/
inductive Json where
  | null : Json
  | num : Int → Json
  | str : String → Json
  | arr : List Json → Json
  | obj : List (String × Json) → Json

/-- JSON.stringify escaping of one string character. -/
def jsonEscapeChar (c : Char) : String :=
  if c = '"' then "\\\""
  else if c = '\\' then "\\\\"
  else if c.toNat = 8 then "\\b"
  else if c.toNat = 9 then "\\t"
  else if c.toNat = 10 then "\\n"
  else if c.toNat = 12 then "\\f"
  else if c.toNat = 13 then "\\r"
  else if c.toNat < 32 then
    "\\u00" ++ String.mk [Nat.digitChar (c.toNat >>> 4), Nat.digitChar (c.toNat &&& 15)]
  else String.mk [c]

/-- JSON.stringify rendering of a string literal. -/
def jsonQuote (s : String) : String :=
  "\"" ++ String.join (s.data.map jsonEscapeChar) ++ "\""

/-- Array.prototype.join with a comma separator. -/
def joinComma : List String → String
  | [] => ""
  | [x] => x
  | x :: y :: rest => x ++ "," ++ joinComma (y :: rest)

mutual
/-- JSON.stringify on the modelled JSON values. -/
def jsonRender : Json → String
  | .null => "null"
  | .num i => toString i
  | .str s => jsonQuote s
  | .arr xs => "[" ++ joinComma (jsonRenderList xs) ++ "]"
  | .obj kvs => "\x7b" ++ joinComma (jsonRenderObj kvs) ++ "\x7d"

/-- Renderings of the elements of a JSON array. -/
def jsonRenderList : List Json → List String
  | [] => []
  | x :: xs => jsonRender x :: jsonRenderList xs

/-- Renderings of the key-value pairs of a JSON object. -/
def jsonRenderObj : List (String × Json) → List String
  | [] => []
  | (k, v) :: rest => (jsonQuote k ++ ":" ++ jsonRender v) :: jsonRenderObj rest
end

/-- Transaction fields from Transaction.js; fromAddress and signature may be null. -/
structure Transaction where
  id : String
  fromAddress : Option String
  toAddress : String
  amount : Int
  type : String
  timestamp : Int
  signature : Option String

/-- A nullable string as a JSON value. -/
def optStrJson : Option String → Json
  | none => Json.null
  | some s => Json.str s

/-- Transaction.toJSON from Transaction.js, with its insertion-ordered fields. -/
def Transaction.toJSON (t : Transaction) : Json :=
  .obj [("id", .str t.id), ("fromAddress", optStrJson t.fromAddress),
    ("toAddress", .str t.toAddress), ("amount", .num t.amount),
    ("type", .str t.type), ("timestamp", .num t.timestamp),
    ("signature", optStrJson t.signature)]

/-- Block fields from Block.js. -/
structure Block where
  timestamp : Int
  transactions : List Transaction
  previousHash : String
  nonce : Nat
  hash : String

/-- The template-literal payload of Block.calculateHash. -/
def blockPayload (previousHash : String) (timestamp : Int) (transactions : List Transaction)
    (nonce : Nat) : String :=
  previousHash ++ toString timestamp ++
    jsonRender (.arr (transactions.map Transaction.toJSON)) ++ toString nonce

/-- Block.calculateHash from Block.js. -/
def Block.calculateHash (b : Block) : String :=
  sha256HexStr (blockPayload b.previousHash b.timestamp b.transactions b.nonce)

/-- The Block constructor: nonce 0 and hash freshly computed. -/
def Block.init (timestamp : Int) (transactions : List Transaction) (previousHash : String) :
    Block :=
  let b : Block := ⟨timestamp, transactions, previousHash, 0, ""⟩
  { b with hash := Block.calculateHash b }

/-- The PoW target Array(difficulty + 1).join of Block.mineBlock. -/
def zeroTarget (difficulty : Nat) : String := String.mk (List.replicate difficulty '0')

/-- JS this.hash.substring(0, difficulty). -/
def strTake (s : String) (n : Nat) : String := String.mk (s.data.take n)

/-- Block.mineBlock from Block.js, with explicit fuel for the unbounded
nonce search; none models non-termination within the given fuel. -/
def Block.mineBlock (b : Block) (difficulty : Nat) (fuel : Nat) : Option Block :=
  if strTake b.hash difficulty = zeroTarget difficulty then some b
  else
    match fuel with
    | 0 => none
    | fuel' + 1 =>
      let b' : Block := { b with nonce := b.nonce + 1 }
      Block.mineBlock { b' with hash := Block.calculateHash b' } difficulty fuel'

/-- The canonical transaction rendering as the spec words it: a JSON object
with fields in the order id, fromAddress, toAddress, amount, type,
timestamp, signature. -/
def specTxRender (t : Transaction) : String :=
  "\x7b\"id\":" ++ jsonQuote t.id ++
  ",\"fromAddress\":" ++ jsonRender (optStrJson t.fromAddress) ++
  ",\"toAddress\":" ++ jsonQuote t.toAddress ++
  ",\"amount\":" ++ toString t.amount ++
  ",\"type\":" ++ jsonQuote t.type ++
  ",\"timestamp\":" ++ toString t.timestamp ++
  ",\"signature\":" ++ jsonRender (optStrJson t.signature) ++ "\x7d"

/-- The canonical block serialization as the spec words it: previousHash,
decimal timestamp, the JSON-array rendering of the transactions, decimal nonce. -/
def specCanonicalSerialization (b : Block) : String :=
  b.previousHash ++ toString b.timestamp ++
    ("[" ++ joinComma (b.transactions.map specTxRender) ++ "]") ++ toString b.nonce

/-- Lowercase hex digit predicate for output-format claims. -/
def isLowerHexB (c : Char) : Bool :=
  decide ((48 ≤ c.toNat ∧ c.toNat ≤ 57) ∨ (97 ≤ c.toNat ∧ c.toNat ≤ 102))

set_option maxRecDepth 10000

/-! ### Structural lemmas about the digest cores -/

theorem sha256Compress_length (h blk : List Nat) : (sha256Compress h blk).length = 8 := rfl

theorem foldl_sha256Compress_length (blocks : List (List Nat)) (h : List Nat)
    (hh : h.length = 8) : (blocks.foldl sha256Compress h).length = 8 := by
  induction blocks generalizing h with
  | nil => simpa using hh
  | cons b bs ih => exact ih _ (sha256Compress_length _ _)

theorem flatMap_wordBytesBE_length (l : List Nat) : (l.flatMap wordBytesBE).length = 4 * l.length := by
  induction l with
  | nil => rfl
  | cons x xs ih => simp [List.flatMap_cons, wordBytesBE, ih]; omega

theorem sha256BytesCore_length (m : List Nat) : (sha256BytesCore m).length = 32 := by
  unfold sha256BytesCore sha256BlockProcess
  have h8 : SHA256_INITIAL.length = 8 := rfl
  rw [flatMap_wordBytesBE_length, foldl_sha256Compress_length _ _ h8]

theorem mem_wordBytesBE_lt (x b : Nat) (hb : b ∈ wordBytesBE x) : b < 256 := by
  have h1 : (x >>> 24) &&& 255 ≤ 255 := Nat.and_le_right
  have h2 : (x >>> 16) &&& 255 ≤ 255 := Nat.and_le_right
  have h3 : (x >>> 8) &&& 255 ≤ 255 := Nat.and_le_right
  have h4 : x &&& 255 ≤ 255 := Nat.and_le_right
  simp [wordBytesBE] at hb
  rcases hb with h | h | h | h <;> omega

theorem sha256BytesCore_lt (m : List Nat) : ∀ b ∈ sha256BytesCore m, b < 256 := by
  intro b hb
  unfold sha256BytesCore sha256BlockProcess at hb
  rw [List.mem_flatMap] at hb
  obtain ⟨x, _, hbx⟩ := hb
  exact mem_wordBytesBE_lt x b hbx

theorem ripemdCompress_length (h blk : List Nat) : (ripemdCompress h blk).length = 5 := rfl

theorem foldl_ripemdCompress_length (blocks : List (List Nat)) (h : List Nat)
    (hh : h.length = 5) : (blocks.foldl ripemdCompress h).length = 5 := by
  induction blocks generalizing h with
  | nil => simpa using hh
  | cons b bs ih => exact ih _ (ripemdCompress_length _ _)

theorem flatMap_wordBytesLE_length (l : List Nat) : (l.flatMap wordBytesLE).length = 4 * l.length := by
  induction l with
  | nil => rfl
  | cons x xs ih => simp [List.flatMap_cons, wordBytesLE, ih]; omega

theorem ripemd160BytesCore_length (m : List Nat) : (ripemd160BytesCore m).length = 20 := by
  unfold ripemd160BytesCore ripemdProcess
  have h5 : RIPEMD160_INIT.length = 5 := rfl
  rw [flatMap_wordBytesLE_length, foldl_ripemdCompress_length _ _ h5]

theorem mem_wordBytesLE_lt (x b : Nat) (hb : b ∈ wordBytesLE x) : b < 256 := by
  have h1 : x &&& 255 ≤ 255 := Nat.and_le_right
  have h2 : (x >>> 8) &&& 255 ≤ 255 := Nat.and_le_right
  have h3 : (x >>> 16) &&& 255 ≤ 255 := Nat.and_le_right
  have h4 : (x >>> 24) &&& 255 ≤ 255 := Nat.and_le_right
  simp [wordBytesLE] at hb
  rcases hb with h | h | h | h <;> omega

theorem ripemd160BytesCore_lt (m : List Nat) : ∀ b ∈ ripemd160BytesCore m, b < 256 := by
  intro b hb
  unfold ripemd160BytesCore ripemdProcess at hb
  rw [List.mem_flatMap] at hb
  obtain ⟨x, _, hbx⟩ := hb
  exact mem_wordBytesLE_lt x b hbx

/-! ### Lemmas about the hex encoding layer -/

theorem mk_data (s : String) : String.mk s.data = s := by
  cases s
  rfl

theorem string_length_data (s : String) : s.length = s.data.length := rfl

theorem bytesToHex_data (bs : List Nat) : (bytesToHex bs).data = bs.flatMap byteHex := rfl

theorem bytesToHex_length (bs : List Nat) : (bytesToHex bs).length = 2 * bs.length := by
  rw [string_length_data, bytesToHex_data]
  induction bs with
  | nil => rfl
  | cons v vs ih => simp [List.flatMap_cons, byteHex, ih]; omega

theorem mem_byteHex_lower : ∀ v, v < 256 → (byteHex v).all isLowerHexB = true := by decide

theorem bytesToHex_mem_lower (bs : List Nat) (h : ∀ v ∈ bs, v < 256) :
    ∀ c ∈ (bytesToHex bs).data, isLowerHexB c = true := by
  intro c hc
  rw [bytesToHex_data, List.mem_flatMap] at hc
  obtain ⟨v, hv, hcv⟩ := hc
  have := mem_byteHex_lower v (h v hv)
  rw [List.all_eq_true] at this
  exact this c hcv

theorem hexPair_byteHex :
    ∀ v, v < 256 → jsHexPairByte (Nat.digitChar (v >>> 4)) (Nat.digitChar (v &&& 15)) = v := by
  decide

theorem hexPairsToBytes_flatMap (bs : List Nat) (h : ∀ v ∈ bs, v < 256) :
    hexPairsToBytes (bs.flatMap byteHex) = bs := by
  induction bs with
  | nil => rfl
  | cons v vs ih =>
    have hv : v < 256 := h v (by simp)
    have hstep : (v :: vs).flatMap byteHex =
        Nat.digitChar (v >>> 4) :: Nat.digitChar (v &&& 15) :: vs.flatMap byteHex := rfl
    rw [hstep]
    show jsHexPairByte (Nat.digitChar (v >>> 4)) (Nat.digitChar (v &&& 15)) ::
      hexPairsToBytes (vs.flatMap byteHex) = v :: vs
    rw [hexPair_byteHex v hv, ih (fun w hw => h w (by simp [hw]))]

theorem hexDigit_not_ws (c : Char) (h : isHexDigitB c = true) : jsWhitespaceB c = false := by
  simp only [isHexDigitB, decide_eq_true_eq] at h
  simp only [jsWhitespaceB, decide_eq_false_iff_not]
  omega

theorem hexDigitVal_lt (c : Char) (h : isHexDigitB c = true) : hexDigitVal c < 16 := by
  simp only [isHexDigitB, decide_eq_true_eq] at h
  unfold hexDigitVal
  split
  · omega
  · split
    · omega
    · split <;> omega

theorem jsParseHexTail_pair (c1 c2 : Char) (h1 : isHexDigitB c1 = true)
    (h2 : isHexDigitB c2 = true) :
    jsParseHexTail [c1, c2] 1 = some ((hexDigitVal c1 : Int) * 16 + hexDigitVal c2) := by
  have h2' := h2
  simp only [isHexDigitB, decide_eq_true_eq] at h2'
  have hstrip : ¬ (c1.toNat = 48 ∧ (c2.toNat = 120 ∨ c2.toNat = 88)) := by omega
  have hs : strip0x [c1, c2] = [c1, c2] := if_neg hstrip
  unfold jsParseHexTail
  rw [hs, List.takeWhile_cons_of_pos h1, List.takeWhile_cons_of_pos h2, List.takeWhile_nil]
  show some (1 * ((0 * 16 + (hexDigitVal c1 : Int)) * 16 + (hexDigitVal c2 : Int))) = _
  congr 1
  ring

theorem jsHexPairByte_valid (c1 c2 : Char) (h1 : isHexDigitB c1 = true)
    (h2 : isHexDigitB c2 = true) :
    jsHexPairByte c1 c2 = hexDigitVal c1 * 16 + hexDigitVal c2 := by
  have hw : jsWhitespaceB c1 = false := hexDigit_not_ws c1 h1
  have hv1 : hexDigitVal c1 < 16 := hexDigitVal_lt c1 h1
  have hv2 : hexDigitVal c2 < 16 := hexDigitVal_lt c2 h2
  have h1' := h1
  simp only [isHexDigitB, decide_eq_true_eq] at h1'
  unfold jsHexPairByte jsParseIntHex
  rw [List.dropWhile_cons_of_neg (by simp [hw])]
  show toUint8 (if c1.toNat = 45 then jsParseHexTail [c2] (-1)
    else if c1.toNat = 43 then jsParseHexTail [c2] 1 else jsParseHexTail [c1, c2] 1) = _
  rw [if_neg (show ¬ c1.toNat = 45 by omega), if_neg (show ¬ c1.toNat = 43 by omega),
    jsParseHexTail_pair c1 c2 h1 h2]
  have hlt : ((hexDigitVal c1 : Int) * 16 + (hexDigitVal c2 : Int)) % 256 =
      (hexDigitVal c1 : Int) * 16 + (hexDigitVal c2 : Int) := by
    rw [Int.emod_eq_of_lt] <;> push_cast <;> omega
  show (((hexDigitVal c1 : Int) * 16 + (hexDigitVal c2 : Int)) % 256).toNat = _
  rw [hlt]
  omega

theorem hexDigit_toNat_lt (c : Char) (h : isHexDigitB c = true) : c.toNat < 103 := by
  simp only [isHexDigitB, decide_eq_true_eq] at h
  omega

theorem digitChar_hexVal_ofNat :
    ∀ n, n < 103 → (isHexDigitB (Char.ofNat n) = true →
      Nat.digitChar (hexDigitVal (Char.ofNat n)) = Char.toLower (Char.ofNat n)) := by
  decide

theorem digitChar_hexVal_toLower (c : Char) (h : isHexDigitB c = true) :
    Nat.digitChar (hexDigitVal c) = Char.toLower c := by
  have hb := hexDigit_toNat_lt c h
  have hc := digitChar_hexVal_ofNat c.toNat hb
  rw [Char.ofNat_toNat] at hc
  exact hc h

theorem toLower_toLower_ofNat :
    ∀ n, n < 103 → (isHexDigitB (Char.ofNat n) = true →
      Char.toLower (Char.toLower (Char.ofNat n)) = Char.toLower (Char.ofNat n)) := by
  decide

theorem toLower_toLower_hex (c : Char) (h : isHexDigitB c = true) :
    Char.toLower (Char.toLower c) = Char.toLower c := by
  have hb := hexDigit_toNat_lt c h
  have hc := toLower_toLower_ofNat c.toNat hb
  rw [Char.ofNat_toNat] at hc
  exact hc h

theorem toLower_fix_lower (c : Char) (h : isLowerHexB c = true) : Char.toLower c = c := by
  simp only [isLowerHexB, decide_eq_true_eq] at h
  unfold Char.toLower
  rw [if_neg (by omega)]

theorem map_toLower_fix (l : List Char) (h : ∀ c ∈ l, isLowerHexB c = true) :
    l.map Char.toLower = l := by
  induction l with
  | nil => rfl
  | cons c cs ih =>
    rw [List.map_cons, toLower_fix_lower c (h c (by simp)), ih (fun d hd => h d (by simp [hd]))]

theorem shift_and_16 :
    ∀ a, a < 16 → ∀ b, b < 16 → ((a * 16 + b) >>> 4 = a ∧ (a * 16 + b) &&& 15 = b) := by
  decide

theorem byteHex_pair (c1 c2 : Char) (h1 : isHexDigitB c1 = true) (h2 : isHexDigitB c2 = true) :
    byteHex (hexDigitVal c1 * 16 + hexDigitVal c2) = [Char.toLower c1, Char.toLower c2] := by
  have hv1 := hexDigitVal_lt c1 h1
  have hv2 := hexDigitVal_lt c2 h2
  have hs := shift_and_16 _ hv1 _ hv2
  unfold byteHex
  rw [hs.1, hs.2, digitChar_hexVal_toLower c1 h1, digitChar_hexVal_toLower c2 h2]

theorem hexPairsToBytes_length (l : List Char) : (hexPairsToBytes l).length = l.length / 2 := by
  induction l using hexPairsToBytes.induct with
  | case1 c1 c2 rest ih => simp [hexPairsToBytes, ih]; omega
  | case2 l h => cases l with
    | nil => rfl
    | cons c cs =>
      cases cs with
      | nil => simp [hexPairsToBytes]
      | cons d ds => exact absurd rfl (h c d ds)

theorem hexPairs_flat_toLower (l : List Char) (hev : l.length % 2 = 0)
    (hx : ∀ c ∈ l, isHexDigitB c = true) :
    (hexPairsToBytes l).flatMap byteHex = l.map Char.toLower := by
  induction l using hexPairsToBytes.induct with
  | case1 c1 c2 rest ih =>
    have h1 : isHexDigitB c1 = true := hx c1 (by simp)
    have h2 : isHexDigitB c2 = true := hx c2 (by simp)
    show (jsHexPairByte c1 c2 :: hexPairsToBytes rest).flatMap byteHex = _
    rw [List.flatMap_cons, jsHexPairByte_valid c1 c2 h1 h2, byteHex_pair c1 c2 h1 h2,
      ih (by simp only [List.length_cons] at hev; omega) (fun d hd => hx d (by simp [hd]))]
    rfl
  | case2 l h => cases l with
    | nil => rfl
    | cons c cs =>
      cases cs with
      | nil => simp at hev
      | cons d ds => exact absurd rfl (h c d ds)

/-! ### HMAC helper lemmas -/

theorem padKey_length (kb : List Nat) : (padKey kb 64).length = 64 := by
  unfold padKey
  by_cases h : kb.length > 64
  · rw [if_pos h]
    have h32 : (sha256BytesCore kb).length = 32 := sha256BytesCore_length kb
    rw [if_pos (by omega)]
    simp [h32]
  · rw [if_neg h]
    by_cases h2 : kb.length < 64
    · rw [if_pos h2]
      simp
      omega
    · rw [if_neg h2]
      omega

theorem range_map_getD (l : List Nat) (f : Nat → Nat) :
    (List.range l.length).map (fun i => f (l.getD i 0)) = l.map f := by
  induction l with
  | nil => rfl
  | cons x xs ih =>
    rw [List.length_cons, List.range_succ_eq_map, List.map_cons, List.map_map]
    show f x :: (List.range xs.length).map (fun i => f (xs.getD i 0)) = f x :: xs.map f
    rw [ih]

theorem zipWith_xor_replicate (l : List Nat) (n c : Nat) (h : l.length = n) :
    l.zipWith (· ^^^ ·) (List.replicate n c) = l.map (· ^^^ c) := by
  induction l generalizing n with
  | nil => simp
  | cons x xs ih =>
    cases n with
    | zero => simp at h
    | succ m =>
      rw [List.replicate_succ, List.zipWith_cons_cons, List.map_cons,
        ih m (by simpa using h)]

theorem padKey_eq_specNormalize (kb : List Nat) :
    padKey kb 64 = (if kb.length > 64 then sha256BytesCore kb else kb) ++
      List.replicate (64 - (if kb.length > 64 then sha256BytesCore kb else kb).length) 0 := by
  unfold padKey
  by_cases h : kb.length > 64
  · rw [if_pos h]
    show (if (sha256BytesCore kb).length < 64 then
        sha256BytesCore kb ++ List.replicate (64 - (sha256BytesCore kb).length) 0
      else sha256BytesCore kb) = _
    rw [if_pos (by rw [sha256BytesCore_length]; omega)]
  · rw [if_neg h]
    show (if kb.length < 64 then kb ++ List.replicate (64 - kb.length) 0 else kb) = _
    by_cases h2 : kb.length < 64
    · rw [if_pos h2]
    · rw [if_neg h2]
      have h64 : 64 - kb.length = 0 := by omega
      rw [h64]
      simp

/-! ### Wallet address derivation helper lemmas -/

theorem sha256HexStr_length (s : String) : (sha256HexStr s).length = 64 := by
  unfold sha256HexStr
  rw [bytesToHex_length, sha256BytesCore_length]

theorem sha256HexStr_lower (s : String) : ∀ c ∈ (sha256HexStr s).data, isLowerHexB c = true :=
  bytesToHex_mem_lower _ (sha256BytesCore_lt _)

theorem strToLower_fix (s : String) (h : ∀ c ∈ s.data, isLowerHexB c = true) :
    strToLower s = s := by
  unfold strToLower
  rw [map_toLower_fix s.data h, mk_data]

theorem hexToBytes_bytesToHex (bs : List Nat) (h : ∀ v ∈ bs, v < 256) :
    hexToBytes (bytesToHex bs) = .ok bs := by
  unfold hexToBytes
  rw [if_neg (by rw [bytesToHex_length]; omega)]
  rw [bytesToHex_data, hexPairsToBytes_flatMap bs h]

theorem ripemdHex_of_sha (s : String) :
    ripemd160Hex (.str (sha256HexStr s)) .hex =
      .ok (bytesToHex (ripemd160BytesCore (sha256BytesCore (utf8Encode s)))) := by
  show Except.map bytesToHex
    (Except.map ripemd160BytesCore
      (hexToBytes (strToLower (bytesToHex (sha256BytesCore (utf8Encode s)))))) = _
  rw [strToLower_fix _ (bytesToHex_mem_lower _ (sha256BytesCore_lt _)),
    hexToBytes_bytesToHex _ (sha256BytesCore_lt _)]
  rfl

/-! ### JSON serialization lemmas -/

theorem jsonRender_toJSON (t : Transaction) : jsonRender (Transaction.toJSON t) = specTxRender t := by
  simp only [Transaction.toJSON, specTxRender, jsonRender, jsonRenderObj, joinComma]
  rw [show (",\"fromAddress\":" : String) = "," ++ jsonQuote "fromAddress" ++ ":" from rfl,
    show (",\"toAddress\":" : String) = "," ++ jsonQuote "toAddress" ++ ":" from rfl,
    show (",\"amount\":" : String) = "," ++ jsonQuote "amount" ++ ":" from rfl,
    show (",\"type\":" : String) = "," ++ jsonQuote "type" ++ ":" from rfl,
    show (",\"timestamp\":" : String) = "," ++ jsonQuote "timestamp" ++ ":" from rfl,
    show (",\"signature\":" : String) = "," ++ jsonQuote "signature" ++ ":" from rfl,
    show ("\x7b\"id\":" : String) = "\x7b" ++ jsonQuote "id" ++ ":" from rfl]
  simp [String.append_assoc]

theorem jsonRenderList_map_spec (txs : List Transaction) :
    jsonRenderList (txs.map Transaction.toJSON) = txs.map specTxRender := by
  induction txs with
  | nil => rfl
  | cons t ts ih =>
    rw [List.map_cons, List.map_cons]
    simp only [jsonRenderList]
    rw [jsonRender_toJSON, ih]

/-! ### Reduction lemmas for the Except monad, used to keep definitional
unfolding away from the large hash-computation lambdas -/

theorem exceptBind_error {α β : Type} (e : CryptoError) (f : α → Except CryptoError β) :
    (Bind.bind (Except.error e : Except CryptoError α) f : Except CryptoError β) =
      Except.error e := rfl

theorem exceptBind_error_dot {α β : Type} (e : CryptoError) (f : α → Except CryptoError β) :
    (Except.error e : Except CryptoError α).bind f = Except.error e := rfl

theorem exceptBind_ok {α β : Type} (a : α) (f : α → Except CryptoError β) :
    (Bind.bind (Except.ok a : Except CryptoError α) f : Except CryptoError β) = f a := rfl

theorem exceptBind_ok_dot {α β : Type} (a : α) (f : α → Except CryptoError β) :
    (Except.ok a : Except CryptoError α).bind f = f a := rfl

theorem exceptMap_error_dot {α β : Type} (e : CryptoError) (f : α → β) :
    (Except.error e : Except CryptoError α).map f = Except.error e := rfl

theorem exceptMap_ok_dot {α β : Type} (a : α) (f : α → β) :
    (Except.ok a : Except CryptoError α).map f = Except.ok (f a) := rfl

theorem exceptPure_eq_ok {α : Type} (a : α) :
    (pure a : Except CryptoError α) = Except.ok a := rfl

/-! ### Claim theorems -/

/-- C1: sha256Hex of the empty byte sequence is the standard NIST vector, and
sha256Hex of the UTF-8 string abc is the standard FIPS 180-4 vector. -/
theorem claim_c1_sha256_known_answers :
    sha256Hex (.bytes []) .utf8 =
      .ok "e3b0c44298fc1c149afbf4c8996fb92427ae41e4649b934ca495991b7852b855" ∧
    sha256Hex (.str "abc") .utf8 =
      .ok "ba7816bf8f01cfea414140de5dae2223b00361a396177a9cb410ff61f20015ad" :=
  ⟨rfl, rfl⟩

/-- C4: ripemd160Hex of the empty byte sequence is the standard vector. -/
theorem claim_c4_ripemd160_known_answer :
    ripemd160Hex (.bytes []) .utf8 = .ok "9c1185a5c5e9fc54612808977ee8f548b2258d31" :=
  rfl

/-- C2: whenever mineBlock terminates on a block whose stored hash satisfies
the constructor invariant, the resulting block's hash starts with difficulty
zero characters and still equals calculateHash of its stored fields. -/
theorem claim_c2_mineBlock_pow (difficulty fuel : Nat) (b b' : Block)
    (hinv : b.hash = b.calculateHash)
    (hmine : b.mineBlock difficulty fuel = some b') :
    strTake b'.hash difficulty = zeroTarget difficulty ∧ b'.hash = b'.calculateHash := by
  induction fuel generalizing b with
  | zero =>
    unfold Block.mineBlock at hmine
    split at hmine
    · cases hmine
      exact ⟨by assumption, hinv⟩
    · exact Option.noConfusion hmine
  | succ fuel ih =>
    unfold Block.mineBlock at hmine
    split at hmine
    · cases hmine
      exact ⟨by assumption, hinv⟩
    · refine ih _ ?_ hmine
      rfl

/-- C2 witness: the genesis-style block with no transactions mines at
difficulty zero within zero extra nonce steps. -/
theorem claim_c2_mineBlock_pow_witness :
    strTake (Block.init 0 [] "").hash 0 = zeroTarget 0 ∧
      (Block.init 0 [] "").hash = (Block.init 0 [] "").calculateHash :=
  claim_c2_mineBlock_pow 0 0 (Block.init 0 [] "") (Block.init 0 [] "") rfl rfl

/-- C5: calculateHash is the SHA-256 hex digest of the canonical
serialization the spec describes: previousHash, decimal timestamp, the
JSON-array rendering of the transactions with field order id, fromAddress,
toAddress, amount, type, timestamp, signature, then decimal nonce. -/
theorem claim_c5_calculateHash_canonical (b : Block) :
    b.calculateHash = sha256HexStr (specCanonicalSerialization b) := by
  unfold Block.calculateHash blockPayload specCanonicalSerialization
  simp only [jsonRender]
  rw [jsonRenderList_map_spec]

/-- C3: address derivation is the stated pure pipeline, and on a 64-hex-digit
private key the address is cosmo followed by 40 lowercase hex characters,
45 characters in all. -/
theorem claim_c3_address_derivation (k : String)
    (hk : k.length = 64 ∧ ∀ c ∈ k.data, isHexDigitB c = true) :
    generatePublicKey k = sha256HexStr k ∧
    generateAddress (generatePublicKey k) =
      (ripemd160Hex (.str (sha256HexStr (generatePublicKey k))) .hex).map
        (fun body => "cosmo" ++ body) ∧
    ∃ body, generateAddress (generatePublicKey k) = .ok ("cosmo" ++ body) ∧
      body.length = 40 ∧ (∀ c ∈ body.data, isLowerHexB c = true) ∧
      ("cosmo" ++ body).length = 45 := by
  refine ⟨rfl, rfl,
    bytesToHex (ripemd160BytesCore (sha256BytesCore (utf8Encode (generatePublicKey k)))),
    ?_, ?_, ?_, ?_⟩
  · show (ripemd160Hex (.str (sha256HexStr (generatePublicKey k))) .hex).map
      (fun body => "cosmo" ++ body) = _
    rw [ripemdHex_of_sha]
    rfl
  · rw [bytesToHex_length, ripemd160BytesCore_length]
  · exact bytesToHex_mem_lower _ (ripemd160BytesCore_lt _)
  · rw [String.length_append, bytesToHex_length, ripemd160BytesCore_length]
    rfl

/-- C3 witness: the all-zero 64-hex-digit private key. -/
theorem claim_c3_address_derivation_witness :
    generatePublicKey "0000000000000000000000000000000000000000000000000000000000000000" =
      sha256HexStr "0000000000000000000000000000000000000000000000000000000000000000" ∧
    generateAddress (generatePublicKey
        "0000000000000000000000000000000000000000000000000000000000000000") =
      (ripemd160Hex (.str (sha256HexStr (generatePublicKey
        "0000000000000000000000000000000000000000000000000000000000000000"))) .hex).map
        (fun body => "cosmo" ++ body) ∧
    ∃ body, generateAddress (generatePublicKey
        "0000000000000000000000000000000000000000000000000000000000000000") =
        .ok ("cosmo" ++ body) ∧
      body.length = 40 ∧ (∀ c ∈ body.data, isLowerHexB c = true) ∧
      ("cosmo" ++ body).length = 45 :=
  claim_c3_address_derivation
    "0000000000000000000000000000000000000000000000000000000000000000"
    ⟨by decide, by decide⟩

/-- C6 counterexample: zz is an even-length string containing characters
outside the hex alphabet, yet hexToBytes succeeds on it, returning the byte 0
instead of failing with InvalidEncoding. -/
theorem claim_c6_counterexample :
    "zz".length % 2 = 0 ∧ (¬ ∀ c ∈ "zz".data, isHexDigitB c = true) ∧
      hexToBytes "zz" = Except.ok [0] :=
  ⟨by decide, by decide, rfl⟩

/-- C6 amended: hexToBytes validates only the length parity; every
even-length string, including strings with non-hex characters, decodes
without error, each 2-character pair going through JS parseInt semantics
with NaN coerced to the byte 0. -/
theorem claim_c6_amended (s : String) (hev : s.length % 2 = 0) :
    ∃ bs, hexToBytes s = .ok bs ∧ bs.length = s.length / 2 := by
  refine ⟨hexPairsToBytes s.data, ?_, ?_⟩
  · unfold hexToBytes
    rw [if_neg (by omega)]
  · rw [hexPairsToBytes_length, string_length_data]

/-- C6 amended witness: the even-length non-hex string zz decodes without error. -/
theorem claim_c6_amended_witness :
    ∃ bs, hexToBytes "zz" = .ok bs ∧ bs.length = "zz".length / 2 :=
  claim_c6_amended "zz" (by decide)

/-- C7: hex encode and decode are mutually inverse: decoding an encoding
returns the original bytes, and encoding a decoding returns the lowercased
original hex string. -/
theorem claim_c7_hex_roundtrip :
    (∀ bs : List Nat, (∀ v ∈ bs, v < 256) → hexToBytes (bytesToHex bs) = .ok bs) ∧
    (∀ h : String, h.length % 2 = 0 → (∀ c ∈ h.data, isHexDigitB c = true) →
      ∃ bs, hexToBytes h = .ok bs ∧ bytesToHex bs = strToLower h) := by
  constructor
  · exact hexToBytes_bytesToHex
  · intro h hev hx
    refine ⟨hexPairsToBytes h.data, ?_, ?_⟩
    · unfold hexToBytes
      rw [if_neg (by omega)]
    · unfold bytesToHex
      rw [hexPairs_flat_toLower h.data (by rw [← string_length_data]; exact hev) hx]
      rfl

/-- C7 witness: the byte list 0, 255 and the mixed-case hex string Ab. -/
theorem claim_c7_hex_roundtrip_witness :
    hexToBytes (bytesToHex [0, 255]) = .ok [0, 255] ∧
      ∃ bs, hexToBytes "Ab" = .ok bs ∧ bytesToHex bs = strToLower "Ab" :=
  ⟨claim_c7_hex_roundtrip.1 [0, 255] (by decide),
   claim_c7_hex_roundtrip.2 "Ab" (by decide) (by decide)⟩

/-- C8: hmacSha256Hex computes, for every key and message, exactly the
two-pass construction the spec states, with the key normalized to 64 bytes
(hashed first when longer) and ipad and opad the bytes 0x36 and 0x5c. -/
theorem claim_c8_hmac_formula (key message : Input) (keyEncoding messageEncoding : Encoding) :
    hmacSha256Hex key message keyEncoding messageEncoding =
      (normalizeInput key keyEncoding).bind (fun kb =>
        (normalizeInput message messageEncoding).map (fun mb => hmacSpecFormula kb mb)) := by
  unfold hmacSha256Hex
  cases hk : normalizeInput key keyEncoding with
  | error e => rw [exceptBind_error, exceptBind_error_dot]
  | ok kb =>
    simp only [exceptBind_ok, exceptBind_ok_dot]
    cases hm : normalizeInput message messageEncoding with
    | error e => simp only [exceptBind_error, exceptMap_error_dot]
    | ok mb =>
      simp only [exceptBind_ok, exceptMap_ok_dot, exceptPure_eq_ok]
      show Except.ok (bytesToHex (sha256BytesCore
          ((List.range 64).map (fun i => (padKey kb 64).getD i 0 ^^^ 0x5c) ++
            sha256BytesCore
              ((List.range 64).map (fun i => (padKey kb 64).getD i 0 ^^^ 0x36) ++ mb)))) =
        Except.ok (hmacSpecFormula kb mb)
      refine congrArg Except.ok ?_
      have hk64 : (padKey kb 64).length = 64 := padKey_length kb
      have h36 : (List.range 64).map (fun i => (padKey kb 64).getD i 0 ^^^ 0x36) =
          (padKey kb 64).zipWith (· ^^^ ·) (List.replicate 64 0x36) := by
        rw [zipWith_xor_replicate _ 64 _ hk64]
        have hr := range_map_getD (padKey kb 64) (· ^^^ 0x36)
        rw [hk64] at hr
        exact hr
      have h5c : (List.range 64).map (fun i => (padKey kb 64).getD i 0 ^^^ 0x5c) =
          (padKey kb 64).zipWith (· ^^^ ·) (List.replicate 64 0x5c) := by
        rw [zipWith_xor_replicate _ 64 _ hk64]
        have hr := range_map_getD (padKey kb 64) (· ^^^ 0x5c)
        rw [hk64] at hr
        exact hr
      rw [h36, h5c, padKey_eq_specNormalize kb]
      rfl

/-- C9: hexToBytes rejects every odd-length string with InvalidEncoding. -/
theorem claim_c9_odd_length_rejected (s : String) (h : s.length % 2 = 1) :
    hexToBytes s = .error .invalidEncoding := by
  unfold hexToBytes
  rw [if_pos (by omega)]

/-- C9 witness: hexToBytes fails on abc. -/
theorem claim_c9_odd_length_rejected_witness :
    hexToBytes "abc" = .error .invalidEncoding :=
  claim_c9_odd_length_rejected "abc" (by decide)

/-- C10: on valid even-length hex strings the hex-mode hash functions are
case-insensitive, because normalizeInput lowercases before decoding. -/
theorem claim_c10_hex_case_insensitive (h : String) (hev : h.length % 2 = 0)
    (hx : ∀ c ∈ h.data, isHexDigitB c = true) :
    sha256Hex (.str h) .hex = sha256Hex (.str (strToLower h)) .hex ∧
    ripemd160Hex (.str h) .hex = ripemd160Hex (.str (strToLower h)) .hex := by
  have hll : strToLower (strToLower h) = strToLower h := by
    show String.mk ((h.data.map Char.toLower).map Char.toLower) = String.mk (h.data.map Char.toLower)
    rw [List.map_map]
    exact congrArg String.mk (List.map_congr_left
      (fun c hc => by simpa [Function.comp] using toLower_toLower_hex c (hx c hc)))
  constructor
  · show Except.map bytesToHex (Except.map sha256BytesCore (hexToBytes (strToLower h))) =
      Except.map bytesToHex (Except.map sha256BytesCore (hexToBytes (strToLower (strToLower h))))
    rw [hll]
  · show Except.map bytesToHex (Except.map ripemd160BytesCore (hexToBytes (strToLower h))) =
      Except.map bytesToHex (Except.map ripemd160BytesCore (hexToBytes (strToLower (strToLower h))))
    rw [hll]

/-- C10 witness: the uppercase hex string AB hashes like its lowercasing. -/
theorem claim_c10_hex_case_insensitive_witness :
    sha256Hex (.str "AB") .hex = sha256Hex (.str (strToLower "AB")) .hex ∧
    ripemd160Hex (.str "AB") .hex = ripemd160Hex (.str (strToLower "AB")) .hex :=
  claim_c10_hex_case_insensitive "AB" (by decide) (by decide)
